import Mathlib

/-!
Verification development for the `voice_assistant` package: a shallow
embedding of `wakeword.py` (the `WakeWordDetector` frame buffering and
detection loop) and of `assistant.py` (the `VoiceAssistant` session state
machine, inactivity watchdog and shutdown protocol), together with theorems
about the embedded definitions.

Conventions of the embedding:
* 16-bit PCM samples are `Int`; raw byte strings are `List Nat` (each < 256).
* Classifier scores and clock times are `ℚ` (the Python code uses floats but
  performs no float-specific arithmetic: only comparisons and subtraction).
* The external `openwakeword` classifier (`self.model`) is a parameter: a
  hidden-state type `σ`, a `predict` step returning the new hidden state and
  an ordered association list of (label, score) pairs — Python dict
  iteration order — and an initial state that `model.reset()` restores.
-/

namespace VoiceAssistant

/-- `self._chunk_samples = 1280` in `WakeWordDetector.__init__`: openWakeWord
expects 80 ms frames (1280 samples at 16 kHz).  The field is set once at
construction and never mutated, so it is a constant of the embedding. -/
def chunkSamples : Nat := 1280

/-- The external wake-word classifier (`self.model`, an `openwakeword` Model):
a stateful scoring function over fixed-size frames.  `predict` consumes the
hidden state and a frame and yields the new hidden state plus the ordered
(label, score) pairs of `prediction.items()`; `init` is the hidden state that
`model.reset()` restores. -/
structure Classifier (σ : Type) where
  init : σ
  predict : σ → List Int → σ × List (String × ℚ)

/-- The mutable state of a `WakeWordDetector` instance: `self.threshold`,
`self._buffer` (pending int16 samples), the classifier hidden state held
inside `self.model`, and `self._model_names`. -/
structure DetectorState (σ : Type) where
  threshold : ℚ
  buffer : List Int
  clsState : σ
  model_names : List String

/-- The `for wake_word, score in prediction.items(): if score >= self.threshold:
return wake_word` scan: first label whose score meets the threshold, in
iteration order. -/
def firstDetection (threshold : ℚ) : List (String × ℚ) → Option String
  | [] => none
  | (w, s) :: rest =>
    if threshold ≤ s then some w else firstDetection threshold rest

/-- The `while len(self._buffer) >= self._chunk_samples:` loop of
`WakeWordDetector.process_audio`, instrumented with the list of frames that
were passed to `self.model.predict` (in order).  On a detection the Python
code calls `self.reset()` — restoring the classifier hidden state and
clearing the whole buffer, pending remainder included — and returns the
label; otherwise the loop drains every full frame and returns `None`.
Result: (returned label, classifier hidden state, `self._buffer`,
frames scored). -/
def processLoop {σ : Type} (cls : Classifier σ) (threshold : ℚ)
    (st : σ) (buffer : List Int) :
    Option String × σ × List Int × List (List Int) :=
  if _h : chunkSamples ≤ buffer.length then
    let frame := buffer.take chunkSamples
    let rest := buffer.drop chunkSamples
    let step := cls.predict st frame
    match firstDetection threshold step.2 with
    | some w => (some w, cls.init, [], [frame])
    | none =>
      let r := processLoop cls threshold step.1 rest
      (r.1, r.2.1, r.2.2.1, frame :: r.2.2.2)
  else
    (none, st, buffer, [])
termination_by buffer.length
decreasing_by
  simp only [List.length_drop]
  have hpos : 0 < chunkSamples := by decide
  omega

/-- `WakeWordDetector.process_audio` at the sample level (after the
`np.frombuffer` conversion): append the incoming samples to `self._buffer`,
then run the extraction loop.  Returns the detected label (or `none`), the
updated detector state, and the frames passed to the classifier. -/
def process_audio {σ : Type} (cls : Classifier σ) (d : DetectorState σ)
    (samples : List Int) :
    Option String × DetectorState σ × List (List Int) :=
  let r := processLoop cls d.threshold d.clsState (d.buffer ++ samples)
  (r.1, { d with clsState := r.2.1, buffer := r.2.2.1 }, r.2.2.2)

/-- `WakeWordDetector.reset`: `self.model.reset()` and clear `self._buffer`. -/
def reset {σ : Type} (cls : Classifier σ) (d : DetectorState σ) :
    DetectorState σ :=
  { d with clsState := cls.init, buffer := [] }

/-- `np.frombuffer(two bytes, dtype=np.int16)` for one sample:
little-endian pair of bytes read as a signed 16-bit integer. -/
def int16OfBytes (lo hi : Nat) : Int :=
  let v := lo % 256 + 256 * (hi % 256)
  if v < 32768 then (v : Int) else (v : Int) - 65536

/-- `np.frombuffer(audio_chunk, dtype=np.int16)`: interprets the byte string
as int16 samples; raises `ValueError` (here: `none`) when the byte count is
not a multiple of the element size 2. -/
def bytesToInt16 : List Nat → Option (List Int)
  | [] => some []
  | [_] => none
  | lo :: hi :: rest => (bytesToInt16 rest).map (fun l => int16OfBytes lo hi :: l)

/-- `WakeWordDetector.process_audio` at the byte level: `np.frombuffer`
conversion first (which can fail on odd byte counts), then the sample-level
processing.  `none` models the `ValueError` escaping the call. -/
def process_audio_bytes {σ : Type} (cls : Classifier σ) (d : DetectorState σ)
    (chunk : List Nat) :
    Option (Option String × DetectorState σ × List (List Int)) :=
  (bytesToInt16 chunk).map (process_audio cls d)

/-- Pushing a sequence of sample chunks through `process_audio` one call
after the other, collecting all frames passed to the classifier.  Models a
sequence of `detector.process_audio(chunk)` calls. -/
def pushChunks {σ : Type} (cls : Classifier σ) (d : DetectorState σ) :
    List (List Int) → DetectorState σ × List (List Int)
  | [] => (d, [])
  | c :: cs =>
    let r := process_audio cls d c
    let r2 := pushChunks cls r.2.1 cs
    (r2.1, r.2.2 ++ r2.2)

/-- Mathematical chunking, written from the spec's words ("the Frame Buffer
emits exactly ⌊N / frameLength⌋ full frames, in order"): the greedy list of
full `chunkSamples`-frames of a sample list. -/
def framesOf (l : List Int) : List (List Int) :=
  if _h : chunkSamples ≤ l.length then
    l.take chunkSamples :: framesOf (l.drop chunkSamples)
  else []
termination_by l.length
decreasing_by
  simp only [List.length_drop]
  have hpos : 0 < chunkSamples := by decide
  omega

/-- Mathematical remainder, written from the spec's words ("retains exactly
`N mod frameLength` samples pending"): what is left after removing every
full frame. -/
def remOf (l : List Int) : List Int :=
  if _h : chunkSamples ≤ l.length then remOf (l.drop chunkSamples) else l
termination_by l.length
decreasing_by
  simp only [List.length_drop]
  have hpos : 0 < chunkSamples := by decide
  omega

/-! ### The session state machine of `assistant.py` -/

/-- `AssistantState` in `assistant.py`. -/
inductive AState : Type
  | LISTENING
  | ACTIVATED
  | RESPONDING
deriving DecidableEq, Repr

/-- The shared mutable state of a `VoiceAssistant`: `self._running`,
`self._state`, `self._last_activity_time`, the monotonic clock, whether a
remote session is currently open (the `async with ... connect` scope in
`_run_session`), and whether the capture/playback devices are started. -/
structure GlobalSt : Type where
  running : Bool
  state : AState
  lastActivity : ℚ
  now : ℚ
  sessionOpen : Bool
  captureOn : Bool
  playerOn : Bool
deriving DecidableEq, Repr

/-- `VoiceAssistant.shutdown`: early return when `self._running` is already
false; otherwise clear the running flag, force the state to `LISTENING` and
stop capture and playback. -/
def shutdown (s : GlobalSt) : GlobalSt :=
  if s.running = false then s
  else { s with running := false, state := AState.LISTENING,
                captureOn := false, playerOn := false }

/-- The scheduler-visible events of one assistant process.  Each event is an
atomic (await-free) state update taken from `assistant.py`; the asyncio event
loop interleaves them. -/
inductive Event : Type
  /-- `run()` invokes `_run_session` (only after `_listen_for_wakeword`
  returned true — a wake phrase was detected — or with detection disabled):
  lines 135–136 set `ACTIVATED`, stamp the activity clock; the session is
  then opened. -/
  | sessionStart
  /-- `_send_audio` forwards one mic chunk and stamps the activity clock. -/
  | sendChunk
  /-- `_receive_audio` handles a `model_turn` message: state `RESPONDING`. -/
  | recvModelTurn
  /-- `_receive_audio` handles `turn_complete`: state `ACTIVATED`, stamp. -/
  | recvTurnComplete
  /-- The `except` in `_receive_audio`: a transport error in the receive
  loop is caught, logged, and the receive loop exits; nothing else. -/
  | recvError
  /-- `_check_timeout` fires: state was `ACTIVATED` and the inactivity
  timeout elapsed; state becomes `LISTENING`. -/
  | watchdogFire
  /-- `_run_session` line 162 after `gather` returned normally (all three
  tasks exited, so state was already `LISTENING` or the flag cleared):
  the session scope has closed and state is set to `LISTENING`. -/
  | sessionEnd
  /-- The `except` in `_run_session`: an error raised while opening or
  running the session (e.g. `connect` failing or `session.send` raising
  inside `_send_audio`) is caught and logged, the session scope closes,
  and line 162 sets the state to `LISTENING`. -/
  | sessionError
  /-- `shutdown()` is invoked (from `run`'s `finally` or externally). -/
  | shutdownEv
  /-- The monotonic clock advances by `dt ≥ 0`. -/
  | tick (dt : ℚ)
deriving DecidableEq, Repr

/-- One atomic step of the assistant, with the configured inactivity
timeout `tmo` (`self.wakeword_config.timeout`).  Guards and effects are read
off `assistant.py` line by line; see each `Event` constructor. -/
inductive Step (tmo : ℚ) : GlobalSt → Event → GlobalSt → Prop
  | sessionStart {s : GlobalSt} :
      s.running = true → s.state = AState.LISTENING → s.sessionOpen = false →
      Step tmo s Event.sessionStart
        { s with state := AState.ACTIVATED, lastActivity := s.now,
                 sessionOpen := true }
  | sendChunk {s : GlobalSt} :
      s.sessionOpen = true → s.running = true → s.state ≠ AState.LISTENING →
      Step tmo s Event.sendChunk { s with lastActivity := s.now }
  | recvModelTurn {s : GlobalSt} :
      s.sessionOpen = true → s.running = true → s.state ≠ AState.LISTENING →
      Step tmo s Event.recvModelTurn { s with state := AState.RESPONDING }
  | recvTurnComplete {s : GlobalSt} :
      s.sessionOpen = true → s.running = true → s.state ≠ AState.LISTENING →
      Step tmo s Event.recvTurnComplete
        { s with state := AState.ACTIVATED, lastActivity := s.now }
  | recvError {s : GlobalSt} :
      s.sessionOpen = true →
      Step tmo s Event.recvError s
  | watchdogFire {s : GlobalSt} :
      s.sessionOpen = true → s.state = AState.ACTIVATED →
      tmo ≤ s.now - s.lastActivity →
      Step tmo s Event.watchdogFire { s with state := AState.LISTENING }
  | sessionEnd {s : GlobalSt} :
      s.sessionOpen = true →
      (s.state = AState.LISTENING ∨ s.running = false) →
      Step tmo s Event.sessionEnd
        { s with state := AState.LISTENING, sessionOpen := false }
  | sessionError {s : GlobalSt} :
      s.sessionOpen = true →
      Step tmo s Event.sessionError
        { s with state := AState.LISTENING, sessionOpen := false }
  | shutdownEv {s : GlobalSt} :
      Step tmo s Event.shutdownEv (shutdown s)
  | tick {s : GlobalSt} (dt : ℚ) :
      0 ≤ dt →
      Step tmo s (Event.tick dt) { s with now := s.now + dt }

/-- The state right after `run()` has set `self._running = True` and started
capture and playback: listening, no session open. -/
def initSt : GlobalSt :=
  { running := true, state := AState.LISTENING, lastActivity := 0, now := 0,
    sessionOpen := false, captureOn := true, playerOn := true }

/-- States reachable from `initSt` by `Step`s. -/
inductive Reachable (tmo : ℚ) : GlobalSt → Prop
  | init : Reachable tmo initSt
  | step {s e s'} : Reachable tmo s → Step tmo s e s' → Reachable tmo s'

/-- `VoiceAssistant.__init__` lines 37–39: `os.getenv("GEMINI_API_KEY")`
yields `none` when the variable is unset; `if not api_key` is also true for
an empty string; either raises `ValueError` before the run loop exists. -/
def initAssistant (apiKey : Option String) : Except String Unit :=
  match apiKey with
  | none => Except.error "GEMINI_API_KEY environment variable not set"
  | some k =>
    if k = "" then Except.error "GEMINI_API_KEY environment variable not set"
    else Except.ok ()

/-! ### The inactivity watchdog loop of `_check_timeout` -/

/-- What one pass of the `_check_timeout` loop did. -/
inductive WdAction : Type
  | exitLoop
  | fire
deriving DecidableEq, Repr

/-- The `_check_timeout` loop run against an environment trace.  `env j`
gives `(self._running, self._state, self._last_activity_time)` as observed
at integer second `j` (the poll interval is 1 second); iteration `i` checks
the `while` guard at second `i`, sleeps, and at second `i + 1` checks
`self._state == ACTIVATED` and `time.monotonic() - self._last_activity_time
>= self.wakeword_config.timeout`, firing (state := LISTENING, break) when
both hold.  Returns the second at which the loop exited or fired; `none`
when the fuel ran out with the loop still going. -/
def watchdogRun (env : Nat → Bool × AState × ℚ) (tmo : ℚ) :
    Nat → Nat → Option (Nat × WdAction)
  | _, 0 => none
  | i, fuel + 1 =>
    if (env i).1 = false ∨ (env i).2.1 = AState.LISTENING then
      some (i, WdAction.exitLoop)
    else if (env (i + 1)).2.1 = AState.ACTIVATED ∧
        tmo ≤ ((i : ℚ) + 1) - (env (i + 1)).2.2 then
      some (i + 1, WdAction.fire)
    else
      watchdogRun env tmo (i + 1) fuel

/-! ### Chunking lemmas -/

theorem chunkSamples_pos : 0 < chunkSamples := by decide

theorem framesOf_of_lt {l : List Int} (h : l.length < chunkSamples) :
    framesOf l = [] := by
  rw [framesOf]
  simp [Nat.not_le.mpr h]

theorem framesOf_of_le {l : List Int} (h : chunkSamples ≤ l.length) :
    framesOf l = l.take chunkSamples :: framesOf (l.drop chunkSamples) := by
  rw [framesOf]
  simp [h]

theorem remOf_of_lt {l : List Int} (h : l.length < chunkSamples) :
    remOf l = l := by
  rw [remOf]
  simp [Nat.not_le.mpr h]

theorem remOf_of_le {l : List Int} (h : chunkSamples ≤ l.length) :
    remOf l = remOf (l.drop chunkSamples) := by
  rw [remOf]
  simp [h]

theorem length_remOf (l : List Int) :
    (remOf l).length = l.length % chunkSamples := by
  have H : ∀ (n : Nat) (l : List Int), l.length ≤ n →
      (remOf l).length = l.length % chunkSamples := by
    intro n
    induction n with
    | zero =>
      intro l hl
      have h0 : l.length = 0 := Nat.le_zero.mp hl
      rw [remOf_of_lt (by rw [h0]; exact chunkSamples_pos), h0]
      simp
    | succ n ih =>
      intro l hl
      by_cases h : chunkSamples ≤ l.length
      · rw [remOf_of_le h]
        have hd : (l.drop chunkSamples).length = l.length - chunkSamples := by
          simp
        rw [ih (l.drop chunkSamples)
          (by rw [hd]; have := chunkSamples_pos; omega), hd]
        have h1280 : chunkSamples = 1280 := rfl
        rw [h1280] at h ⊢
        omega
      · rw [remOf_of_lt (Nat.not_le.mp h)]
        exact (Nat.mod_eq_of_lt (Nat.not_le.mp h)).symm
  exact H l.length l (Nat.le_refl _)

theorem length_framesOf (l : List Int) :
    (framesOf l).length = l.length / chunkSamples := by
  have H : ∀ (n : Nat) (l : List Int), l.length ≤ n →
      (framesOf l).length = l.length / chunkSamples := by
    intro n
    induction n with
    | zero =>
      intro l hl
      have h0 : l.length = 0 := Nat.le_zero.mp hl
      rw [framesOf_of_lt (by rw [h0]; exact chunkSamples_pos), h0]
      simp
    | succ n ih =>
      intro l hl
      by_cases h : chunkSamples ≤ l.length
      · rw [framesOf_of_le h]
        have hd : (l.drop chunkSamples).length = l.length - chunkSamples := by
          simp
        rw [List.length_cons, ih (l.drop chunkSamples)
          (by rw [hd]; have := chunkSamples_pos; omega), hd]
        have h1280 : chunkSamples = 1280 := rfl
        rw [h1280] at h ⊢
        omega
      · rw [framesOf_of_lt (Nat.not_le.mp h)]
        have h1280 : chunkSamples = 1280 := rfl
        rw [h1280] at h ⊢
        simp only [List.length_nil]
        omega
  exact H l.length l (Nat.le_refl _)

theorem mem_framesOf_length {l f : List Int} (hf : f ∈ framesOf l) :
    f.length = chunkSamples := by
  have H : ∀ (n : Nat) (l : List Int), l.length ≤ n → f ∈ framesOf l →
      f.length = chunkSamples := by
    intro n
    induction n with
    | zero =>
      intro l hl hf
      have h0 : l.length = 0 := Nat.le_zero.mp hl
      rw [framesOf_of_lt (by rw [h0]; exact chunkSamples_pos)] at hf
      exact absurd hf (List.not_mem_nil f)
    | succ n ih =>
      intro l hl hf
      by_cases h : chunkSamples ≤ l.length
      · rw [framesOf_of_le h] at hf
        rcases List.mem_cons.mp hf with h1 | h2
        · subst h1
          exact List.length_take_of_le h
        · exact ih (l.drop chunkSamples)
            (by simp; have := chunkSamples_pos; omega) h2
      · rw [framesOf_of_lt (Nat.not_le.mp h)] at hf
        exact absurd hf (List.not_mem_nil f)
  exact H l.length l (Nat.le_refl _) hf

theorem length_remOf_lt (l : List Int) : (remOf l).length < chunkSamples := by
  rw [length_remOf]
  exact Nat.mod_lt _ chunkSamples_pos

theorem framesOf_append (x y : List Int) :
    framesOf (x ++ y) = framesOf x ++ framesOf (remOf x ++ y) := by
  have H : ∀ (n : Nat) (x : List Int), x.length ≤ n →
      framesOf (x ++ y) = framesOf x ++ framesOf (remOf x ++ y) := by
    intro n
    induction n with
    | zero =>
      intro x hx
      have h0 : x = [] := List.eq_nil_of_length_eq_zero (Nat.le_zero.mp hx)
      subst h0
      have hrem : remOf ([] : List Int) = [] := remOf_of_lt (by decide)
      have hfr : framesOf ([] : List Int) = [] := framesOf_of_lt (by decide)
      rw [hrem]
      simp [hfr]
    | succ n ih =>
      intro x hx
      by_cases h : chunkSamples ≤ x.length
      · have hxy : chunkSamples ≤ (x ++ y).length := by
          rw [List.length_append]; omega
        rw [framesOf_of_le hxy, framesOf_of_le h, remOf_of_le h,
          List.take_append_of_le_length h, List.drop_append_of_le_length h]
        rw [ih (x.drop chunkSamples)
          (by simp; have := chunkSamples_pos; omega)]
        simp
      · rw [framesOf_of_lt (Nat.not_le.mp h), remOf_of_lt (Nat.not_le.mp h)]
        simp
  exact H x.length x (Nat.le_refl _)

theorem remOf_append (x y : List Int) :
    remOf (x ++ y) = remOf (remOf x ++ y) := by
  have H : ∀ (n : Nat) (x : List Int), x.length ≤ n →
      remOf (x ++ y) = remOf (remOf x ++ y) := by
    intro n
    induction n with
    | zero =>
      intro x hx
      have h0 : x = [] := List.eq_nil_of_length_eq_zero (Nat.le_zero.mp hx)
      subst h0
      have hrem : remOf ([] : List Int) = [] := remOf_of_lt (by decide)
      rw [hrem]
    | succ n ih =>
      intro x hx
      by_cases h : chunkSamples ≤ x.length
      · have hxy : chunkSamples ≤ (x ++ y).length := by
          rw [List.length_append]; omega
        rw [remOf_of_le hxy, remOf_of_le h,
          List.drop_append_of_le_length h]
        exact ih (x.drop chunkSamples)
          (by simp; have := chunkSamples_pos; omega)
      · rw [remOf_of_lt (Nat.not_le.mp h)]
  exact H x.length x (Nat.le_refl _)

/-! ### The detection loop characterised -/

theorem firstDetection_eq_none {threshold : ℚ} {l : List (String × ℚ)}
    (h : ∀ p ∈ l, p.2 < threshold) : firstDetection threshold l = none := by
  induction l with
  | nil => rfl
  | cons p rest ih =>
    obtain ⟨w, s⟩ := p
    rw [firstDetection]
    have hs : s < threshold := h (w, s) (List.mem_cons_self _ _)
    rw [if_neg (not_le.mpr hs)]
    exact ih (fun q hq => h q (List.mem_cons_of_mem _ hq))

/-- The classifier hidden state after scoring a list of frames in order. -/
def stateAfter {σ : Type} (cls : Classifier σ) (st : σ) :
    List (List Int) → σ
  | [] => st
  | f :: fs => stateAfter cls (cls.predict st f).1 fs

/-- The (label, score) lists the classifier produced for a list of frames
scored in order, starting from hidden state `st`. -/
def predTrace {σ : Type} (cls : Classifier σ) (st : σ) :
    List (List Int) → List (List (String × ℚ))
  | [] => []
  | f :: fs => (cls.predict st f).2 :: predTrace cls (cls.predict st f).1 fs

theorem processLoop_of_lt {σ : Type} (cls : Classifier σ) (th : ℚ) (st : σ)
    {buf : List Int} (h : buf.length < chunkSamples) :
    processLoop cls th st buf = (none, st, buf, []) := by
  rw [processLoop]
  simp [Nat.not_le.mpr h]

theorem processLoop_of_detect {σ : Type} (cls : Classifier σ) (th : ℚ)
    (st : σ) {buf : List Int} (h : chunkSamples ≤ buf.length) {w : String}
    (hd : firstDetection th (cls.predict st (buf.take chunkSamples)).2 = some w) :
    processLoop cls th st buf = (some w, cls.init, [], [buf.take chunkSamples]) := by
  rw [processLoop]
  simp [h, hd]

theorem processLoop_of_nodetect {σ : Type} (cls : Classifier σ) (th : ℚ)
    (st : σ) {buf : List Int} (h : chunkSamples ≤ buf.length)
    (hd : firstDetection th (cls.predict st (buf.take chunkSamples)).2 = none) :
    processLoop cls th st buf =
      ((processLoop cls th (cls.predict st (buf.take chunkSamples)).1
          (buf.drop chunkSamples)).1,
       (processLoop cls th (cls.predict st (buf.take chunkSamples)).1
          (buf.drop chunkSamples)).2.1,
       (processLoop cls th (cls.predict st (buf.take chunkSamples)).1
          (buf.drop chunkSamples)).2.2.1,
       buf.take chunkSamples ::
         (processLoop cls th (cls.predict st (buf.take chunkSamples)).1
            (buf.drop chunkSamples)).2.2.2) := by
  rw [processLoop]
  simp [h, hd]

/-- When the detection loop returned `None`, it drained every full frame:
the classifier scored exactly the full frames of the buffer in order, the
pending buffer is the remainder, and every scored frame was below
threshold. -/
theorem processLoop_none_spec {σ : Type} (cls : Classifier σ) (th : ℚ)
    (st : σ) (buf : List Int)
    (h1 : (processLoop cls th st buf).1 = none) :
    processLoop cls th st buf =
      (none, stateAfter cls st (framesOf buf), remOf buf, framesOf buf) ∧
    ∀ q ∈ predTrace cls st (framesOf buf), firstDetection th q = none := by
  have H : ∀ (n : Nat) (st : σ) (buf : List Int), buf.length ≤ n →
      (processLoop cls th st buf).1 = none →
      processLoop cls th st buf =
        (none, stateAfter cls st (framesOf buf), remOf buf, framesOf buf) ∧
      ∀ q ∈ predTrace cls st (framesOf buf), firstDetection th q = none := by
    intro n
    induction n with
    | zero =>
      intro st buf hb _
      have h0 : buf.length = 0 := Nat.le_zero.mp hb
      have hlt : buf.length < chunkSamples := by
        rw [h0]; exact chunkSamples_pos
      rw [processLoop_of_lt cls th st hlt, framesOf_of_lt hlt, remOf_of_lt hlt]
      exact ⟨rfl, by intro q hq; exact absurd hq (List.not_mem_nil q)⟩
    | succ n ih =>
      intro st buf hb h1
      by_cases h : chunkSamples ≤ buf.length
      · cases hd : firstDetection th (cls.predict st (buf.take chunkSamples)).2 with
        | some w =>
          rw [processLoop_of_detect cls th st h hd] at h1
          exact absurd h1 (by simp)
        | none =>
          have hrest : (buf.drop chunkSamples).length ≤ n := by
            simp only [List.length_drop]
            have := chunkSamples_pos
            omega
          rw [processLoop_of_nodetect cls th st h hd] at h1 ⊢
          simp only at h1
          obtain ⟨ihe, ihq⟩ := ih (cls.predict st (buf.take chunkSamples)).1
            (buf.drop chunkSamples) hrest h1
          rw [framesOf_of_le h, remOf_of_le h]
          constructor
          · rw [ihe]
            simp [stateAfter]
          · intro q hq
            simp only [predTrace] at hq
            rcases List.mem_cons.mp hq with hq1 | hq2
            · rw [hq1]; exact hd
            · exact ihq q hq2
      · have hlt := Nat.not_le.mp h
        rw [processLoop_of_lt cls th st hlt, framesOf_of_lt hlt, remOf_of_lt hlt]
        exact ⟨rfl, by intro q hq; exact absurd hq (List.not_mem_nil q)⟩
  exact H buf.length st buf (Nat.le_refl _) h1

/-- When the detection loop returned a label, the scored frames are a prefix
of the available full frames ending exactly at the first frame whose
prediction met the threshold, the returned label is the first label at or
above threshold in that frame's prediction, and the detector was reset:
classifier state back to initial, pending buffer empty. -/
theorem processLoop_some_spec {σ : Type} (cls : Classifier σ) (th : ℚ)
    (st : σ) (buf : List Int) (w : String)
    (h1 : (processLoop cls th st buf).1 = some w) :
    (processLoop cls th st buf).2.1 = cls.init ∧
    (processLoop cls th st buf).2.2.1 = [] ∧
    ∃ pre frame,
      (processLoop cls th st buf).2.2.2 = pre ++ [frame] ∧
      (framesOf buf).take (pre.length + 1) = pre ++ [frame] ∧
      (∀ q ∈ predTrace cls st pre, firstDetection th q = none) ∧
      firstDetection th (cls.predict (stateAfter cls st pre) frame).2 = some w := by
  have H : ∀ (n : Nat) (st : σ) (buf : List Int), buf.length ≤ n →
      (processLoop cls th st buf).1 = some w →
      (processLoop cls th st buf).2.1 = cls.init ∧
      (processLoop cls th st buf).2.2.1 = [] ∧
      ∃ pre frame,
        (processLoop cls th st buf).2.2.2 = pre ++ [frame] ∧
        (framesOf buf).take (pre.length + 1) = pre ++ [frame] ∧
        (∀ q ∈ predTrace cls st pre, firstDetection th q = none) ∧
        firstDetection th (cls.predict (stateAfter cls st pre) frame).2 = some w := by
    intro n
    induction n with
    | zero =>
      intro st buf hb h1
      have hlt : buf.length < chunkSamples := by
        rw [Nat.le_zero.mp hb]; exact chunkSamples_pos
      rw [processLoop_of_lt cls th st hlt] at h1
      exact absurd h1 (by simp)
    | succ n ih =>
      intro st buf hb h1
      by_cases h : chunkSamples ≤ buf.length
      · cases hd : firstDetection th (cls.predict st (buf.take chunkSamples)).2 with
        | some w0 =>
          rw [processLoop_of_detect cls th st h hd] at h1 ⊢
          simp only at h1
          have hw : w0 = w := Option.some_injective _ h1
          subst hw
          refine ⟨rfl, rfl, [], buf.take chunkSamples, rfl, ?_, ?_, hd⟩
          · rw [framesOf_of_le h]
            simp
          · intro q hq
            exact absurd hq (List.not_mem_nil q)
        | none =>
          have hrest : (buf.drop chunkSamples).length ≤ n := by
            simp only [List.length_drop]
            have := chunkSamples_pos
            omega
          rw [processLoop_of_nodetect cls th st h hd] at h1 ⊢
          simp only at h1 ⊢
          obtain ⟨ih1, ih2, pre, frame, ihtr, ihpref, ihnone, ihdet⟩ :=
            ih (cls.predict st (buf.take chunkSamples)).1
              (buf.drop chunkSamples) hrest h1
          refine ⟨ih1, ih2, buf.take chunkSamples :: pre, frame, ?_, ?_, ?_, ?_⟩
          · rw [ihtr]
            simp
          · rw [framesOf_of_le h]
            simp only [List.length_cons, List.take_succ_cons]
            rw [ihpref]
            simp
          · intro q hq
            simp only [predTrace] at hq
            rcases List.mem_cons.mp hq with hq1 | hq2
            · rw [hq1]; exact hd
            · exact ihnone q hq2
          · simpa [stateAfter] using ihdet
      · have hlt := Nat.not_le.mp h
        rw [processLoop_of_lt cls th st hlt] at h1
        exact absurd h1 (by simp)
  exact H buf.length st buf (Nat.le_refl _) h1

theorem stateAfter_append {σ : Type} (cls : Classifier σ) (st : σ)
    (a b : List (List Int)) :
    stateAfter cls st (a ++ b) = stateAfter cls (stateAfter cls st a) b := by
  induction a generalizing st with
  | nil => rfl
  | cons f fs ih => simp [stateAfter, ih]

/-- With a classifier that never reaches the threshold, the detection loop
returns no label, drains every full frame in order and keeps the
remainder. -/
theorem processLoop_no_global_detect {σ : Type} (cls : Classifier σ)
    (th : ℚ) (st : σ) (buf : List Int)
    (hno : ∀ (s : σ) (f : List Int), ∀ p ∈ (cls.predict s f).2, p.2 < th) :
    processLoop cls th st buf =
      (none, stateAfter cls st (framesOf buf), remOf buf, framesOf buf) := by
  cases h1 : (processLoop cls th st buf).1 with
  | none => exact (processLoop_none_spec cls th st buf h1).1
  | some w =>
    obtain ⟨_, _, pre, frame, _, _, _, hdet⟩ :=
      processLoop_some_spec cls th st buf w h1
    rw [firstDetection_eq_none (fun p hp => hno _ frame p hp)] at hdet
    exact absurd hdet (by simp)

theorem process_audio_no_detect {σ : Type} (cls : Classifier σ)
    (d : DetectorState σ) (samples : List Int)
    (hno : ∀ (s : σ) (f : List Int), ∀ p ∈ (cls.predict s f).2,
      p.2 < d.threshold) :
    process_audio cls d samples =
      (none,
       { d with
          clsState := stateAfter cls d.clsState (framesOf (d.buffer ++ samples)),
          buffer := remOf (d.buffer ++ samples) },
       framesOf (d.buffer ++ samples)) := by
  unfold process_audio
  rw [processLoop_no_global_detect cls d.threshold d.clsState
    (d.buffer ++ samples) hno]

/-- With a classifier that never reaches the threshold, any sequence of
`process_audio` calls scores exactly the full frames of the concatenated
input (initial pending samples included), in order, and retains the
remainder. -/
theorem pushChunks_no_detect {σ : Type} (cls : Classifier σ) (th : ℚ)
    (hno : ∀ (s : σ) (f : List Int), ∀ p ∈ (cls.predict s f).2, p.2 < th) :
    ∀ (chunks : List (List Int)) (d : DetectorState σ),
      d.threshold = th → d.buffer.length < chunkSamples →
      pushChunks cls d chunks =
        ({ d with
            clsState :=
              stateAfter cls d.clsState (framesOf (d.buffer ++ chunks.flatten)),
            buffer := remOf (d.buffer ++ chunks.flatten) },
         framesOf (d.buffer ++ chunks.flatten)) := by
  intro chunks
  induction chunks with
  | nil =>
    intro d hth hb
    show (d, []) = _
    simp only [List.flatten_nil, List.append_nil, framesOf_of_lt hb,
      remOf_of_lt hb]
    rfl
  | cons c cs ih =>
    intro d hth hb
    have hno' : ∀ (s : σ) (f : List Int), ∀ p ∈ (cls.predict s f).2,
        p.2 < d.threshold := by rw [hth]; exact hno
    show ((pushChunks cls (process_audio cls d c).2.1 cs).1,
          (process_audio cls d c).2.2 ++
            (pushChunks cls (process_audio cls d c).2.1 cs).2) = _
    rw [process_audio_no_detect cls d c hno']
    rw [ih { d with
        clsState := stateAfter cls d.clsState (framesOf (d.buffer ++ c)),
        buffer := remOf (d.buffer ++ c) } hth (length_remOf_lt _)]
    have hfr : framesOf (d.buffer ++ (c :: cs).flatten) =
        framesOf (d.buffer ++ c) ++
          framesOf (remOf (d.buffer ++ c) ++ cs.flatten) := by
      rw [List.flatten_cons, ← List.append_assoc, framesOf_append]
    have hrem : remOf (d.buffer ++ (c :: cs).flatten) =
        remOf (remOf (d.buffer ++ c) ++ cs.flatten) := by
      rw [List.flatten_cons, ← List.append_assoc, remOf_append]
    rw [hfr, hrem, stateAfter_append]

theorem processLoop_buffer_length {σ : Type} (cls : Classifier σ) (th : ℚ)
    (st : σ) (buf : List Int) :
    (processLoop cls th st buf).2.2.1.length < chunkSamples := by
  cases h1 : (processLoop cls th st buf).1 with
  | none =>
    rw [(processLoop_none_spec cls th st buf h1).1]
    exact length_remOf_lt buf
  | some w =>
    rw [(processLoop_some_spec cls th st buf w h1).2.1]
    exact chunkSamples_pos

theorem processLoop_frames_full {σ : Type} (cls : Classifier σ) (th : ℚ)
    (st : σ) (buf : List Int) :
    ∀ f ∈ (processLoop cls th st buf).2.2.2, f.length = chunkSamples := by
  cases h1 : (processLoop cls th st buf).1 with
  | none =>
    rw [(processLoop_none_spec cls th st buf h1).1]
    intro f hf
    exact mem_framesOf_length hf
  | some w =>
    obtain ⟨_, _, pre, frame, htr, hpref, _, _⟩ :=
      processLoop_some_spec cls th st buf w h1
    rw [htr]
    intro f hf
    have hmem : f ∈ framesOf buf := by
      rw [← hpref] at hf
      exact List.take_subset _ _ hf
    exact mem_framesOf_length hmem

/-- `bytesToInt16` succeeds exactly on even byte counts. -/
theorem bytesToInt16_even :
    ∀ (chunk : List Nat), chunk.length % 2 = 0 →
      ∃ l, bytesToInt16 chunk = some l := by
  have H : ∀ (n : Nat) (chunk : List Nat), chunk.length ≤ n →
      chunk.length % 2 = 0 → ∃ l, bytesToInt16 chunk = some l := by
    intro n
    induction n with
    | zero =>
      intro chunk hc _
      have h0 : chunk = [] := List.eq_nil_of_length_eq_zero (Nat.le_zero.mp hc)
      subst h0
      exact ⟨[], rfl⟩
    | succ n ih =>
      intro chunk hc hpar
      match chunk with
      | [] => exact ⟨[], rfl⟩
      | [x] => simp at hpar
      | lo :: hi :: rest =>
        have hr : rest.length % 2 = 0 := by
          simp only [List.length_cons] at hpar
          omega
        have hlen : rest.length ≤ n := by
          simp only [List.length_cons] at hc
          omega
        obtain ⟨l, hl⟩ := ih rest hlen hr
        exact ⟨int16OfBytes lo hi :: l, by rw [bytesToInt16, hl]; rfl⟩
  exact fun chunk => H chunk.length chunk (Nat.le_refl _)

theorem bytesToInt16_odd :
    ∀ (chunk : List Nat), chunk.length % 2 = 1 →
      bytesToInt16 chunk = none := by
  have H : ∀ (n : Nat) (chunk : List Nat), chunk.length ≤ n →
      chunk.length % 2 = 1 → bytesToInt16 chunk = none := by
    intro n
    induction n with
    | zero =>
      intro chunk hc hpar
      have h0 : chunk = [] := List.eq_nil_of_length_eq_zero (Nat.le_zero.mp hc)
      subst h0
      simp at hpar
    | succ n ih =>
      intro chunk hc hpar
      match chunk with
      | [] => simp at hpar
      | [x] => rfl
      | lo :: hi :: rest =>
        have hr : rest.length % 2 = 1 := by
          simp only [List.length_cons] at hpar
          omega
        have hlen : rest.length ≤ n := by
          simp only [List.length_cons] at hc
          omega
        rw [bytesToInt16, ih rest hlen hr]
        rfl
  exact fun chunk => H chunk.length chunk (Nat.le_refl _)

/-! ### Concrete instances used by the witnesses -/

/-- A classifier with trivial hidden state scoring the single label
`hey_jarvis` at the constant score `s`. -/
def constCls (s : ℚ) : Classifier Unit :=
  ⟨(), fun _ _ => ((), [("hey_jarvis", s)])⟩

/-- A freshly constructed detector over a trivial-hidden-state classifier:
threshold `th`, empty pending buffer. -/
def freshD (th : ℚ) : DetectorState Unit :=
  ⟨th, [], (), ["hey_jarvis"]⟩

/-- A scripted classifier whose hidden state counts frames: scores for the
single label `hey-x` are 1/10, 6/10, 9/10, 9/10, … on successive frames. -/
def scriptedCls : Classifier Nat :=
  ⟨0, fun n _ =>
    (n + 1, [("hey-x", if n = 0 then 1/10 else if n = 1 then 6/10 else 9/10)])⟩

/-- A freshly constructed detector over `scriptedCls` with the default
threshold 0.5. -/
def scriptedD : DetectorState Nat :=
  ⟨1/2, [], 0, ["hey-x"]⟩

/-! ### The claims about the wake-word detector -/

/-- C6: after every completed `process_audio` call — detection or not — the
pending sample buffer is strictly shorter than the 1280-sample frame
length. -/
theorem process_audio_buffer_invariant {σ : Type} (cls : Classifier σ)
    (d : DetectorState σ) (samples : List Int) :
    (process_audio cls d samples).2.1.buffer.length < chunkSamples :=
  processLoop_buffer_length cls d.threshold d.clsState (d.buffer ++ samples)

/-- C10: `process_audio` and `reset` leave the configured threshold and the
loaded model names unchanged (the 1280-sample frame length is a constant of
the code, set once in `__init__`); only the pending buffer and the
classifier hidden state are written: `reset` empties the buffer and restores
the initial classifier state. -/
theorem detector_frame_conditions {σ : Type} (cls : Classifier σ)
    (d : DetectorState σ) (samples : List Int) :
    (process_audio cls d samples).2.1.threshold = d.threshold ∧
    (process_audio cls d samples).2.1.model_names = d.model_names ∧
    (reset cls d).threshold = d.threshold ∧
    (reset cls d).model_names = d.model_names ∧
    (reset cls d).buffer = [] ∧
    (reset cls d).clsState = cls.init :=
  ⟨rfl, rfl, rfl, rfl, rfl, rfl⟩

/-- C7: the detection comparison `score >= self.threshold` is inclusive.
For a detector with an empty pending buffer fed exactly one full frame whose
prediction carries the single entry `(w, s)`: a score equal to (or above)
the threshold returns the label, a score strictly below returns `None`. -/
theorem threshold_comparison_inclusive {σ : Type} (cls : Classifier σ)
    (d : DetectorState σ) (samples : List Int) (w : String) (s : ℚ)
    (hbuf : d.buffer = []) (hlen : samples.length = chunkSamples)
    (hpred : (cls.predict d.clsState samples).2 = [(w, s)]) :
    (s = d.threshold → (process_audio cls d samples).1 = some w) ∧
    (d.threshold ≤ s → (process_audio cls d samples).1 = some w) ∧
    (s < d.threshold → (process_audio cls d samples).1 = none) := by
  have h : chunkSamples ≤ samples.length := by omega
  have htake : samples.take chunkSamples = samples := by
    rw [← hlen]
    exact List.take_length samples
  have hdrop : samples.drop chunkSamples = [] := by
    rw [← hlen]
    exact List.drop_length samples
  have hsome : ∀ hc : d.threshold ≤ s, (process_audio cls d samples).1 = some w := by
    intro hc
    show (processLoop cls d.threshold d.clsState (d.buffer ++ samples)).1 = some w
    rw [hbuf, List.nil_append]
    have hdet : firstDetection d.threshold
        (cls.predict d.clsState (samples.take chunkSamples)).2 = some w := by
      rw [htake, hpred, firstDetection, if_pos hc]
    rw [processLoop_of_detect cls d.threshold d.clsState h hdet]
  refine ⟨fun he => hsome (le_of_eq he.symm), hsome, ?_⟩
  intro hc
  show (processLoop cls d.threshold d.clsState (d.buffer ++ samples)).1 = none
  rw [hbuf, List.nil_append]
  have hnod : firstDetection d.threshold
      (cls.predict d.clsState (samples.take chunkSamples)).2 = none := by
    rw [htake, hpred, firstDetection, if_neg (not_le.mpr hc)]
    rfl
  rw [processLoop_of_nodetect cls d.threshold d.clsState h hnod]
  rw [hdrop, processLoop_of_lt cls d.threshold _ (by decide)]

theorem threshold_comparison_inclusive_witness :
    (process_audio (constCls (1/2)) (freshD (1/2))
      (List.replicate 1280 0)).1 = some "hey_jarvis" ∧
    (process_audio (constCls (1/4)) (freshD (1/2))
      (List.replicate 1280 0)).1 = none := by
  constructor
  · exact (threshold_comparison_inclusive (constCls (1/2)) (freshD (1/2))
      (List.replicate 1280 0) "hey_jarvis" (1/2) rfl
      (by simp only [List.length_replicate, chunkSamples]) rfl).1 rfl
  · exact (threshold_comparison_inclusive (constCls (1/4)) (freshD (1/2))
      (List.replicate 1280 0) "hey_jarvis" (1/4) rfl
      (by simp only [List.length_replicate, chunkSamples]) rfl).2.2 (by norm_num [freshD])

/-- C8 counterexample: the claim says `process_audio` accepts chunks of any
byte length, odd byte counts included.  It does not: `np.frombuffer` raises
`ValueError` when the byte count is not a multiple of the int16 element
size, so the one-byte chunk `[0]` makes the call error out (`none`). -/
theorem process_audio_bytes_odd_raises :
    process_audio_bytes (constCls 0) (freshD (1/2)) [0] = none ∧
    ¬(∀ (chunk : List Nat), ∃ out,
        process_audio_bytes (constCls 0) (freshD (1/2)) chunk = some out) := by
  refine ⟨rfl, fun hclaim => ?_⟩
  obtain ⟨out, hout⟩ := hclaim [0]
  have h0 : process_audio_bytes (constCls 0) (freshD (1/2)) [0] = none := rfl
  rw [h0] at hout
  exact absurd hout (by simp)

/-- C8 (amended): `process_audio` accepts every chunk holding a whole number
of 16-bit samples — even byte counts, zero-length and non-frame-multiples
included — completing normally with only full 1280-sample frames ever passed
to the classifier, while odd byte counts raise `ValueError` in
`np.frombuffer`. -/
theorem process_audio_bytes_even_total {σ : Type} (cls : Classifier σ)
    (d : DetectorState σ) (chunk : List Nat) :
    (chunk.length % 2 = 0 →
      ∃ out, process_audio_bytes cls d chunk = some out ∧
        ∀ f ∈ out.2.2, f.length = chunkSamples) ∧
    (chunk.length % 2 = 1 → process_audio_bytes cls d chunk = none) := by
  constructor
  · intro hev
    obtain ⟨l, hl⟩ := bytesToInt16_even chunk hev
    refine ⟨process_audio cls d l, ?_, ?_⟩
    · show (bytesToInt16 chunk).map (process_audio cls d) = _
      rw [hl]
      rfl
    · intro f hf
      exact processLoop_frames_full cls d.threshold d.clsState
        (d.buffer ++ l) f hf
  · intro hodd
    show (bytesToInt16 chunk).map (process_audio cls d) = none
    rw [bytesToInt16_odd chunk hodd]
    rfl

theorem process_audio_bytes_even_total_witness :
    (∃ out, process_audio_bytes (constCls 0) (freshD (1/2)) [0, 0] = some out ∧
      ∀ f ∈ out.2.2, f.length = chunkSamples) ∧
    process_audio_bytes (constCls 0) (freshD (1/2)) [7] = none := by
  constructor
  · exact (process_audio_bytes_even_total (constCls 0) (freshD (1/2))
      [0, 0]).1 (by decide)
  · exact (process_audio_bytes_even_total (constCls 0) (freshD (1/2))
      [7]).2 (by decide)

/-- C1: with a classifier that never reaches the threshold, pushing any
sequence of chunks totalling N samples through `process_audio` on a fresh
detector scores exactly the ⌊N/1280⌋ full frames of the concatenated input,
oldest first, retains exactly N mod 1280 pending samples, and yields the
same frame sequence as pushing the whole input in a single call — so any
splitting into chunks (size-1 chunks included) yields the same frames. -/
theorem process_audio_frame_extraction {σ : Type} (cls : Classifier σ)
    (d : DetectorState σ) (chunks : List (List Int))
    (hbuf : d.buffer = [])
    (hno : ∀ (s : σ) (f : List Int), ∀ p ∈ (cls.predict s f).2,
      p.2 < d.threshold) :
    (pushChunks cls d chunks).2 = framesOf chunks.flatten ∧
    (pushChunks cls d chunks).2.length = chunks.flatten.length / chunkSamples ∧
    (pushChunks cls d chunks).1.buffer = remOf chunks.flatten ∧
    (pushChunks cls d chunks).1.buffer.length =
      chunks.flatten.length % chunkSamples ∧
    (pushChunks cls d chunks).2 = (process_audio cls d chunks.flatten).2.2 := by
  have hb : d.buffer.length < chunkSamples := by
    rw [hbuf]
    exact chunkSamples_pos
  have key := pushChunks_no_detect cls d.threshold hno chunks d rfl hb
  rw [hbuf, List.nil_append] at key
  have htrace : (pushChunks cls d chunks).2 = framesOf chunks.flatten := by
    rw [key]
  have hbuffer : (pushChunks cls d chunks).1.buffer = remOf chunks.flatten := by
    rw [key]
  refine ⟨htrace, ?_, hbuffer, ?_, ?_⟩
  · rw [htrace]
    exact length_framesOf chunks.flatten
  · rw [hbuffer]
    exact length_remOf chunks.flatten
  · rw [htrace, process_audio_no_detect cls d chunks.flatten hno, hbuf,
      List.nil_append]

theorem process_audio_frame_extraction_witness :
    (pushChunks (constCls 0) (freshD (1/2)) [[0], [1], [2]]).2 =
      framesOf ([[0], [1], [2]] : List (List Int)).flatten ∧
    (pushChunks (constCls 0) (freshD (1/2)) [[0], [1], [2]]).2.length =
      ([[0], [1], [2]] : List (List Int)).flatten.length / chunkSamples ∧
    (pushChunks (constCls 0) (freshD (1/2)) [[0], [1], [2]]).1.buffer =
      remOf ([[0], [1], [2]] : List (List Int)).flatten ∧
    (pushChunks (constCls 0) (freshD (1/2)) [[0], [1], [2]]).1.buffer.length =
      ([[0], [1], [2]] : List (List Int)).flatten.length % chunkSamples ∧
    (pushChunks (constCls 0) (freshD (1/2)) [[0], [1], [2]]).2 =
      (process_audio (constCls 0) (freshD (1/2))
        ([[0], [1], [2]] : List (List Int)).flatten).2.2 :=
  process_audio_frame_extraction (constCls 0) (freshD (1/2)) [[0], [1], [2]]
    rfl
    (by
      intro s f p hp
      simp only [constCls, List.mem_singleton] at hp
      rw [hp]
      norm_num [freshD])

theorem predTrace_append {σ : Type} (cls : Classifier σ) (st : σ)
    (a b : List (List Int)) :
    predTrace cls st (a ++ b) =
      predTrace cls st a ++ predTrace cls (stateAfter cls st a) b := by
  induction a generalizing st with
  | nil => rfl
  | cons f fs ih => simp [predTrace, stateAfter, ih]

/-- C2: (i) if a `process_audio` call returns a label, then `reset()` ran
(pending buffer emptied, classifier state back to initial), the scored
frames are the initial segment of the available full frames ending exactly
at the first frame whose prediction met the threshold — no later frame is
scored — and the label is this frame's first at-or-above-threshold label;
(ii) the call returns no detection exactly when every available full frame
scores below threshold; (iii) hence whenever some available frame's score
meets the threshold, the call does return a label — which by (i) is the
label of the first such frame. -/
theorem process_audio_first_match_wins {σ : Type} (cls : Classifier σ)
    (d : DetectorState σ) (samples : List Int) :
    (∀ w, (process_audio cls d samples).1 = some w →
      (process_audio cls d samples).2.1.buffer = [] ∧
      (process_audio cls d samples).2.1.clsState = cls.init ∧
      ∃ pre frame,
        (process_audio cls d samples).2.2 = pre ++ [frame] ∧
        (framesOf (d.buffer ++ samples)).take (pre.length + 1) =
          pre ++ [frame] ∧
        (∀ q ∈ predTrace cls d.clsState pre,
          firstDetection d.threshold q = none) ∧
        firstDetection d.threshold
          (cls.predict (stateAfter cls d.clsState pre) frame).2 = some w) ∧
    ((process_audio cls d samples).1 = none ↔
      ∀ q ∈ predTrace cls d.clsState (framesOf (d.buffer ++ samples)),
        firstDetection d.threshold q = none) ∧
    ((∃ q ∈ predTrace cls d.clsState (framesOf (d.buffer ++ samples)),
        firstDetection d.threshold q ≠ none) →
      ∃ w, (process_audio cls d samples).1 = some w) := by
  have hiff : (process_audio cls d samples).1 = none ↔
      ∀ q ∈ predTrace cls d.clsState (framesOf (d.buffer ++ samples)),
        firstDetection d.threshold q = none := by
    constructor
    · intro h1
      have h1' : (processLoop cls d.threshold d.clsState
          (d.buffer ++ samples)).1 = none := h1
      exact (processLoop_none_spec cls d.threshold d.clsState
        (d.buffer ++ samples) h1').2
    · intro hall
      cases h1 : (process_audio cls d samples).1 with
      | none => rfl
      | some w =>
        exfalso
        have h1' : (processLoop cls d.threshold d.clsState
            (d.buffer ++ samples)).1 = some w := h1
        obtain ⟨_, _, pre, frame, _, hpref, _, hdet⟩ :=
          processLoop_some_spec cls d.threshold d.clsState
            (d.buffer ++ samples) w h1'
        have hsplit : framesOf (d.buffer ++ samples) =
            (pre ++ [frame]) ++
              (framesOf (d.buffer ++ samples)).drop (pre.length + 1) := by
          have h0 := List.take_append_drop (pre.length + 1)
            (framesOf (d.buffer ++ samples))
          rw [hpref] at h0
          exact h0.symm
        have hmem : (cls.predict (stateAfter cls d.clsState pre) frame).2 ∈
            predTrace cls d.clsState (framesOf (d.buffer ++ samples)) := by
          rw [hsplit, List.append_assoc, predTrace_append]
          apply List.mem_append_right
          simp [predTrace]
        rw [hall _ hmem] at hdet
        exact absurd hdet (by simp)
  refine ⟨?_, hiff, ?_⟩
  · intro w h1
    have h1' : (processLoop cls d.threshold d.clsState
        (d.buffer ++ samples)).1 = some w := h1
    obtain ⟨ha, hb, pre, frame, htr, hpref, hnone, hdet⟩ :=
      processLoop_some_spec cls d.threshold d.clsState
        (d.buffer ++ samples) w h1'
    exact ⟨hb, ha, pre, frame, htr, hpref, hnone, hdet⟩
  · rintro ⟨q, hq, hne⟩
    cases h1 : (process_audio cls d samples).1 with
    | some w => exact ⟨w, rfl⟩
    | none => exact absurd (hiff.mp h1 q hq) hne

/-- Unfolding equation for `process_audio` (no reduction of the loop). -/
theorem process_audio_eq {σ : Type} (cls : Classifier σ) (d : DetectorState σ)
    (samples : List Int) :
    process_audio cls d samples =
      ((processLoop cls d.threshold d.clsState (d.buffer ++ samples)).1,
       { d with
          clsState :=
            (processLoop cls d.threshold d.clsState (d.buffer ++ samples)).2.1,
          buffer :=
            (processLoop cls d.threshold d.clsState (d.buffer ++ samples)).2.2.1 },
       (processLoop cls d.threshold d.clsState (d.buffer ++ samples)).2.2.2) :=
  rfl

theorem process_audio_first_match_wins_witness :
    (process_audio scriptedCls scriptedD (List.replicate 3840 0)).1 =
      some "hey-x" ∧
    (process_audio scriptedCls scriptedD (List.replicate 3840 0)).2.2 =
      [List.replicate 1280 0, List.replicate 1280 0] ∧
    (process_audio scriptedCls scriptedD
      (List.replicate 3840 0)).2.1.buffer = [] ∧
    (process_audio scriptedCls scriptedD
      (List.replicate 3840 0)).2.1.clsState = scriptedCls.init ∧
    (process_audio (constCls 0) (freshD (1/2)) []).1 = none ∧
    (∃ w, (process_audio (constCls 1) (freshD (1/2))
      (List.replicate 1280 0)).1 = some w) := by
  have ht1 : (List.replicate 3840 (0:Int)).take chunkSamples =
      List.replicate 1280 0 := by
    rw [List.take_replicate]
    congr 1
  have hd1 : (List.replicate 3840 (0:Int)).drop chunkSamples =
      List.replicate 2560 0 := by
    rw [List.drop_replicate]
    congr 1
  have ht2 : (List.replicate 2560 (0:Int)).take chunkSamples =
      List.replicate 1280 0 := by
    rw [List.take_replicate]
    congr 1
  have e1 : processLoop scriptedCls (1/2) 1 (List.replicate 2560 (0:Int)) =
      (some "hey-x", 0, [], [List.replicate 1280 0]) := by
    have h : chunkSamples ≤ (List.replicate 2560 (0:Int)).length := by
      rw [List.length_replicate]
      decide
    have hp2 : (scriptedCls.predict 1
        ((List.replicate 2560 (0:Int)).take chunkSamples)).2 =
        [("hey-x", (6:ℚ)/10)] := rfl
    have hdet : firstDetection (1/2) (scriptedCls.predict 1
        ((List.replicate 2560 (0:Int)).take chunkSamples)).2 =
        some "hey-x" := by
      rw [hp2, firstDetection, if_pos (by norm_num)]
    rw [processLoop_of_detect scriptedCls (1/2) 1 h hdet, ht2]
    rfl
  have e2 : processLoop scriptedCls (1/2) 0 (List.replicate 3840 (0:Int)) =
      (some "hey-x", 0, [], [List.replicate 1280 0, List.replicate 1280 0]) := by
    have h : chunkSamples ≤ (List.replicate 3840 (0:Int)).length := by
      rw [List.length_replicate]
      decide
    have hp1 : (scriptedCls.predict 0
        ((List.replicate 3840 (0:Int)).take chunkSamples)).2 =
        [("hey-x", (1:ℚ)/10)] := rfl
    have hnod : firstDetection (1/2) (scriptedCls.predict 0
        ((List.replicate 3840 (0:Int)).take chunkSamples)).2 = none := by
      rw [hp1, firstDetection, if_neg (by norm_num)]
      rfl
    rw [processLoop_of_nodetect scriptedCls (1/2) 0 h hnod]
    have hs1 : (scriptedCls.predict 0
        ((List.replicate 3840 (0:Int)).take chunkSamples)).1 = 1 := rfl
    rw [hs1, hd1, e1, ht1]
  have e3 : process_audio scriptedCls scriptedD (List.replicate 3840 0) =
      (some "hey-x", ⟨1/2, [], 0, ["hey-x"]⟩,
       [List.replicate 1280 0, List.replicate 1280 0]) := by
    rw [process_audio_eq]
    have hargs : scriptedD.buffer ++ List.replicate 3840 (0:Int) =
        List.replicate 3840 0 := rfl
    have hth : scriptedD.threshold = 1/2 := rfl
    have hst : scriptedD.clsState = 0 := rfl
    rw [hargs, hth, hst, e2]
    rfl
  have hw : (process_audio scriptedCls scriptedD
      (List.replicate 3840 0)).1 = some "hey-x" := by
    rw [e3]
  have htr : (process_audio scriptedCls scriptedD
      (List.replicate 3840 0)).2.2 =
      [List.replicate 1280 0, List.replicate 1280 0] := by
    rw [e3]
  have happ := (process_audio_first_match_wins scriptedCls scriptedD
    (List.replicate 3840 0)).1 "hey-x" hw
  refine ⟨hw, htr, happ.1, happ.2.1, ?_, ?_⟩
  · refine (process_audio_first_match_wins (constCls 0)
      (freshD (1/2)) []).2.1.mpr ?_
    have hfr : framesOf ((freshD (1/2)).buffer ++ []) = [] :=
      framesOf_of_lt (by decide)
    intro q hq
    rw [hfr] at hq
    exact absurd hq (List.not_mem_nil q)
  · refine (process_audio_first_match_wins (constCls 1) (freshD (1/2))
      (List.replicate 1280 0)).2.2 ?_
    have hl1 : (freshD (1/2)).buffer ++ List.replicate 1280 (0:Int) =
        List.replicate 1280 0 := rfl
    have hframes : framesOf ((freshD (1/2)).buffer ++
        List.replicate 1280 (0:Int)) = [List.replicate 1280 0] := by
      rw [hl1, framesOf_of_le (by rw [List.length_replicate]; decide),
        List.take_replicate, List.drop_replicate]
      have hmin : min chunkSamples 1280 = 1280 := by decide
      have hsub : 1280 - chunkSamples = 0 := by decide
      rw [hmin, hsub, List.replicate_zero,
        framesOf_of_lt (show ([] : List Int).length < chunkSamples by decide)]
    have hpt : predTrace (constCls 1) (freshD (1/2)).clsState
        [List.replicate 1280 (0:Int)] = [[("hey_jarvis", (1:ℚ))]] := rfl
    refine ⟨[("hey_jarvis", (1:ℚ))], ?_, ?_⟩
    · rw [hframes, hpt]
      exact List.mem_singleton.mpr rfl
    · have hth : (freshD (1/2)).threshold = 1/2 := rfl
      rw [hth, firstDetection, if_pos (by norm_num)]
      simp

/-! ### The claims about the session state machine -/

/-- C5: shutdown is idempotent: on a cleared running flag it is a no-op
(and raises nothing — it is total), a second call gives the same end state
as one call, and one call from a running state clears the flag, forces
`LISTENING` and stops capture and playback. -/
theorem shutdown_idempotent (s : GlobalSt) :
    shutdown (shutdown s) = shutdown s ∧
    (s.running = false → shutdown s = s) ∧
    (s.running = true →
      (shutdown s).running = false ∧
      (shutdown s).state = AState.LISTENING ∧
      (shutdown s).captureOn = false ∧
      (shutdown s).playerOn = false) := by
  by_cases h : s.running = false
  · have h1 : shutdown s = s := by
      rw [shutdown, if_pos h]
    refine ⟨by rw [h1, h1], fun _ => h1, fun hc => ?_⟩
    rw [hc] at h
    exact absurd h (by simp)
  · have h1 : shutdown s =
        { s with running := false, state := AState.LISTENING,
                 captureOn := false, playerOn := false } := by
      rw [shutdown, if_neg h]
    have h2 : shutdown (shutdown s) = shutdown s := by
      rw [h1, shutdown, if_pos rfl]
    exact ⟨h2, fun hc => absurd hc h,
      fun _ => by rw [h1]; exact ⟨rfl, rfl, rfl, rfl⟩⟩

theorem shutdown_idempotent_witness :
    shutdown (shutdown initSt) = shutdown initSt ∧
    (shutdown initSt).running = false ∧
    (shutdown initSt).state = AState.LISTENING ∧
    (shutdown initSt).captureOn = false ∧
    (shutdown initSt).playerOn = false ∧
    shutdown (⟨false, AState.LISTENING, 0, 0, false, false, false⟩ : GlobalSt) =
      (⟨false, AState.LISTENING, 0, 0, false, false, false⟩ : GlobalSt) := by
  have h := shutdown_idempotent initSt
  have hrun := h.2.2 rfl
  exact ⟨h.1, hrun.1, hrun.2.1, hrun.2.2.1, hrun.2.2.2,
    (shutdown_idempotent ⟨false, AState.LISTENING, 0, 0, false, false, false⟩).2.1 rfl⟩

/-- C3 counterexample: the claim says `Listening` is reached from
`Active`/`Responding` only via Watchdog timeout or explicit shutdown.  The
code has a third path: the `except` in `_run_session` (line 159–162) sets
the state to `LISTENING` after a session error.  Concretely, from the
reachable state right after a session start (`ACTIVATED`, session open), a
`sessionError` step — which is neither `watchdogFire` nor `shutdownEv` —
moves the state to `LISTENING`. -/
theorem state_to_listening_not_only_watchdog_shutdown :
    Reachable 30 (⟨true, AState.ACTIVATED, 0, 0, true, true, true⟩ : GlobalSt) ∧
    Step 30 (⟨true, AState.ACTIVATED, 0, 0, true, true, true⟩ : GlobalSt)
      Event.sessionError
      (⟨true, AState.LISTENING, 0, 0, false, true, true⟩ : GlobalSt) ∧
    (⟨true, AState.ACTIVATED, 0, 0, true, true, true⟩ : GlobalSt).state ≠
      AState.LISTENING ∧
    (⟨true, AState.LISTENING, 0, 0, false, true, true⟩ : GlobalSt).state =
      AState.LISTENING ∧
    Event.sessionError ≠ Event.watchdogFire ∧
    Event.sessionError ≠ Event.shutdownEv ∧
    ¬(∀ (tmo : ℚ) (s : GlobalSt) (e : Event) (s' : GlobalSt),
        Step tmo s e s' → s.state ≠ AState.LISTENING →
        s'.state = AState.LISTENING →
        e = Event.watchdogFire ∨ e = Event.shutdownEv) := by
  refine ⟨?_, ?_, by simp, rfl, by simp, by simp, ?_⟩
  · exact Reachable.step Reachable.init (Step.sessionStart rfl rfl rfl)
  · exact Step.sessionError rfl
  · intro hclaim
    have hbad := hclaim 30
      (⟨true, AState.ACTIVATED, 0, 0, true, true, true⟩ : GlobalSt)
      Event.sessionError
      (⟨true, AState.LISTENING, 0, 0, false, true, true⟩ : GlobalSt)
      (Step.sessionError rfl) (by simp) rfl
    rcases hbad with h | h <;> simp at h

/-- C3 (amended): in every step of the state machine, (i) a transition out
of `LISTENING` only goes to `ACTIVATED` and only by a session start —
`run()` invoking `_run_session` after a wake detection or with detection
disabled — never skipping to `RESPONDING`; (ii) `LISTENING` is reached from
`ACTIVATED`/`RESPONDING` only via Watchdog timeout, explicit shutdown, or
session termination at the end of `_run_session` (normal end or caught
session error); (iii) `RESPONDING` is entered only from `ACTIVATED` by a
`model_turn` message; (iv) the Watchdog only ever fires from `ACTIVATED`. -/
theorem state_transition_discipline (tmo : ℚ) (s : GlobalSt) (e : Event)
    (s' : GlobalSt) (hstep : Step tmo s e s') :
    (s.state = AState.LISTENING → s'.state ≠ s.state →
      s'.state = AState.ACTIVATED ∧ e = Event.sessionStart) ∧
    (s.state ≠ AState.LISTENING → s'.state = AState.LISTENING →
      e = Event.watchdogFire ∨ e = Event.shutdownEv ∨
      e = Event.sessionEnd ∨ e = Event.sessionError) ∧
    (s.state = AState.LISTENING → s'.state ≠ AState.RESPONDING) ∧
    (s'.state = AState.RESPONDING → s.state ≠ AState.RESPONDING →
      s.state = AState.ACTIVATED ∧ e = Event.recvModelTurn) ∧
    (e = Event.watchdogFire → s.state = AState.ACTIVATED) := by
  cases hstep with
  | sessionStart h1 h2 h3 =>
    refine ⟨fun _ _ => ⟨rfl, rfl⟩, fun hne _ => absurd h2 hne, ?_, ?_, ?_⟩
    · intro _
      simp
    · intro hc
      simp at hc
    · intro hc
      simp at hc
  | sendChunk h1 h2 h3 =>
    refine ⟨fun _ hne => absurd rfl hne, fun _ hl => absurd hl h3, ?_, ?_, ?_⟩
    · intro hl
      rw [hl] at h3
      exact absurd rfl h3
    · intro hr hnr
      exact absurd hr hnr
    · intro hc
      simp at hc
  | recvModelTurn h1 h2 h3 =>
    refine ⟨?_, ?_, ?_, ?_, ?_⟩
    · intro hl _
      exact absurd hl h3
    · intro _ hl
      simp at hl
    · intro hl
      exact absurd hl h3
    · intro _ hnr
      cases hs : s.state with
      | LISTENING => exact absurd hs h3
      | ACTIVATED => exact ⟨rfl, rfl⟩
      | RESPONDING => exact absurd hs hnr
    · intro hc
      simp at hc
  | recvTurnComplete h1 h2 h3 =>
    refine ⟨fun hl _ => absurd hl h3, fun _ hl => by simp at hl, ?_, ?_, ?_⟩
    · intro _
      simp
    · intro hc
      simp at hc
    · intro hc
      simp at hc
  | recvError h1 =>
    refine ⟨fun _ hne => absurd rfl hne, fun hne hl => absurd hl hne, ?_, ?_, ?_⟩
    · intro hl
      rw [hl]
      simp
    · intro hr hnr
      exact absurd hr hnr
    · intro hc
      simp at hc
  | watchdogFire h1 h2 h3 =>
    refine ⟨fun hl _ => ?_, fun _ _ => Or.inl rfl, ?_, ?_, fun _ => h2⟩
    · rw [hl] at h2
      simp at h2
    · intro _
      simp
    · intro hc
      simp at hc
  | sessionEnd h1 h2 =>
    refine ⟨?_, fun _ _ => Or.inr (Or.inr (Or.inl rfl)), ?_, ?_, ?_⟩
    · intro hl hne
      exact absurd hl.symm hne
    · intro _
      simp
    · intro hc
      simp at hc
    · intro hc
      simp at hc
  | sessionError h1 =>
    refine ⟨?_, fun _ _ => Or.inr (Or.inr (Or.inr rfl)), ?_, ?_, ?_⟩
    · intro hl hne
      exact absurd hl.symm hne
    · intro _
      simp
    · intro hc
      simp at hc
    · intro hc
      simp at hc
  | shutdownEv =>
    by_cases h : s.running = false
    · have h1 : shutdown s = s := by rw [shutdown, if_pos h]
      rw [h1]
      refine ⟨fun _ hne => absurd rfl hne, fun hne hl => absurd hl hne, ?_, ?_, ?_⟩
      · intro hl
        rw [hl]
        simp
      · intro hr hnr
        exact absurd hr hnr
      · intro hc
        simp at hc
    · have h1 : shutdown s =
          { s with running := false, state := AState.LISTENING,
                   captureOn := false, playerOn := false } := by
        rw [shutdown, if_neg h]
      rw [h1]
      refine ⟨fun hl hne => absurd hl.symm hne, fun _ _ => Or.inr (Or.inl rfl),
        ?_, ?_, ?_⟩
      · intro _
        simp
      · intro hc
        simp at hc
      · intro hc
        simp at hc
  | tick dt hdt =>
    refine ⟨fun _ hne => absurd rfl hne, fun hne hl => absurd hl hne, ?_, ?_, ?_⟩
    · intro hl
      rw [hl]
      simp
    · intro hr hnr
      exact absurd hr hnr
    · intro hc
      simp at hc

theorem state_transition_discipline_witness :
    (Event.watchdogFire = Event.watchdogFire ∨
      Event.watchdogFire = Event.shutdownEv ∨
      Event.watchdogFire = Event.sessionEnd ∨
      Event.watchdogFire = Event.sessionError) ∧
    ((⟨true, AState.ACTIVATED, 0, 0, true, true, true⟩ : GlobalSt).state =
      AState.ACTIVATED) := by
  have hstep : Step 30 (⟨true, AState.ACTIVATED, 0, 31, true, true, true⟩ : GlobalSt)
      Event.watchdogFire
      (⟨true, AState.LISTENING, 0, 31, true, true, true⟩ : GlobalSt) :=
    Step.watchdogFire rfl rfl (by norm_num)
  have h := state_transition_discipline 30 _ _ _ hstep
  exact ⟨h.2.1 (by simp) rfl, rfl⟩

/-- If the `_check_timeout` loop fired at second `j`, then at that wake-up
the state was `ACTIVATED` (so never `RESPONDING`) and the configured timeout
had elapsed since the activity stamp read at that moment. -/
theorem watchdogRun_fire_spec (env : Nat → Bool × AState × ℚ) (tmo : ℚ) :
    ∀ (fuel i j : Nat),
      watchdogRun env tmo i fuel = some (j, WdAction.fire) →
      (env j).2.1 = AState.ACTIVATED ∧ tmo ≤ (j : ℚ) - (env j).2.2 := by
  intro fuel
  induction fuel with
  | zero =>
    intro i j h
    simp [watchdogRun] at h
  | succ n ih =>
    intro i j h
    rw [watchdogRun] at h
    by_cases h1 : (env i).1 = false ∨ (env i).2.1 = AState.LISTENING
    · rw [if_pos h1] at h
      simp at h
    · rw [if_neg h1] at h
      by_cases h2 : (env (i + 1)).2.1 = AState.ACTIVATED ∧
          tmo ≤ ((i : ℚ) + 1) - (env (i + 1)).2.2
      · rw [if_pos h2] at h
        simp only [Option.some_injective, Option.some.injEq, Prod.mk.injEq] at h
        obtain ⟨hij, _⟩ := h
        subst hij
        refine ⟨h2.1, ?_⟩
        have hc : ((i + 1 : Nat) : ℚ) = (i : ℚ) + 1 := by push_cast; ring
        rw [hc]
        exact h2.2
      · rw [if_neg h2] at h
        exact ih (i + 1) j h

/-- If the `while` guard fails at the poll time — flag cleared or state back
to `LISTENING` — the loop exits right there without forcing the state. -/
theorem watchdogRun_exit_spec (env : Nat → Bool × AState × ℚ) (tmo : ℚ)
    (i fuel : Nat)
    (h1 : (env i).1 = false ∨ (env i).2.1 = AState.LISTENING)
    (h2 : fuel ≠ 0) :
    watchdogRun env tmo i fuel = some (i, WdAction.exitLoop) := by
  obtain ⟨n, rfl⟩ := Nat.exists_eq_succ_of_ne_zero h2
  rw [watchdogRun, if_pos h1]

/-- If the environment stalls — running, `ACTIVATED`, activity stamp frozen
at `L` — the loop started at second `i` (before the timeout elapsed, with
enough fuel) fires within one 1-second poll interval after `L + tmo`. -/
theorem watchdogRun_stall_fires (env : Nat → Bool × AState × ℚ)
    (tmo L : ℚ) (hstall : ∀ j, env j = (true, AState.ACTIVATED, L)) :
    ∀ (fuel i : Nat), (i : ℚ) ≤ L + tmo → ⌈L + tmo⌉₊ < i + fuel →
      ∃ j, watchdogRun env tmo i fuel = some (j, WdAction.fire) ∧
        tmo ≤ (j : ℚ) - L ∧ (j : ℚ) - L ≤ tmo + 1 := by
  intro fuel
  induction fuel with
  | zero =>
    intro i hstart hfuel
    exfalso
    have hle : (L + tmo) ≤ (⌈L + tmo⌉₊ : ℚ) := Nat.le_ceil _
    have hic : (i : ℚ) ≤ (⌈L + tmo⌉₊ : ℚ) := le_trans hstart hle
    have hi : i ≤ ⌈L + tmo⌉₊ := by exact_mod_cast hic
    omega
  | succ n ih =>
    intro i hstart hfuel
    have hguard : ¬((env i).1 = false ∨ (env i).2.1 = AState.LISTENING) := by
      rw [hstall i]
      simp
    by_cases hfire : tmo ≤ ((i : ℚ) + 1) - L
    · have hcond : (env (i + 1)).2.1 = AState.ACTIVATED ∧
          tmo ≤ ((i : ℚ) + 1) - (env (i + 1)).2.2 := by
        rw [hstall (i + 1)]
        exact ⟨rfl, hfire⟩
      refine ⟨i + 1, ?_, ?_, ?_⟩
      · rw [watchdogRun, if_neg hguard, if_pos hcond]
      · push_cast
        linarith
      · push_cast
        linarith
    · have hstart' : ((i + 1 : Nat) : ℚ) ≤ L + tmo := by
        push_cast
        linarith [not_le.mp hfire]
      have hfuel' : ⌈L + tmo⌉₊ < (i + 1) + n := by omega
      obtain ⟨j, hj, hj1, hj2⟩ := ih (i + 1) hstart' hfuel'
      refine ⟨j, ?_, hj1, hj2⟩
      rw [watchdogRun, if_neg hguard, if_neg ?_]
      · exact hj
      · rw [hstall (i + 1)]
        exact fun hc => hfire hc.2

/-- A `watchdogFire` step is only enabled from `ACTIVATED` with the timeout
elapsed, and it forces `LISTENING`. -/
theorem watchdogFire_step_spec (tmo : ℚ) (s s' : GlobalSt)
    (h : Step tmo s Event.watchdogFire s') :
    s.state = AState.ACTIVATED ∧ s'.state = AState.LISTENING ∧
    tmo ≤ s.now - s.lastActivity := by
  cases h with
  | watchdogFire h1 h2 h3 => exact ⟨h2, rfl, h3⟩

/-- C4: the Watchdog loop of `_check_timeout` (i) under a stalled activity
clock with the state held `ACTIVATED`, fires — forcing `LISTENING` — at a
poll time within one 1-second interval after the configured timeout has
elapsed since the activity stamp; (ii) whenever it fires, the state at that
moment was `ACTIVATED` (never `RESPONDING`) and the timeout had elapsed;
(iii) it exits without forcing the state when the running flag is cleared
or the state is already back to `LISTENING`; (iv) at the step level, a fire
moves `ACTIVATED` to `LISTENING`. -/
theorem watchdog_timeout_behaviour (env : Nat → Bool × AState × ℚ)
    (tmo L : ℚ) (i fuel : Nat)
    (hstall : ∀ j, env j = (true, AState.ACTIVATED, L))
    (hstart : (i : ℚ) ≤ L + tmo)
    (hfuel : ⌈L + tmo⌉₊ < i + fuel) :
    (∃ j, watchdogRun env tmo i fuel = some (j, WdAction.fire) ∧
      tmo ≤ (j : ℚ) - L ∧ (j : ℚ) - L ≤ tmo + 1) ∧
    (∀ (env' : Nat → Bool × AState × ℚ) (tmo' : ℚ) (fuel' i' j' : Nat),
      watchdogRun env' tmo' i' fuel' = some (j', WdAction.fire) →
      (env' j').2.1 = AState.ACTIVATED ∧
      (env' j').2.1 ≠ AState.RESPONDING ∧
      tmo' ≤ (j' : ℚ) - (env' j').2.2) ∧
    (∀ (env' : Nat → Bool × AState × ℚ) (tmo' : ℚ) (i' fuel' : Nat),
      ((env' i').1 = false ∨ (env' i').2.1 = AState.LISTENING) →
      fuel' ≠ 0 →
      watchdogRun env' tmo' i' fuel' = some (i', WdAction.exitLoop)) ∧
    (∀ (tmo' : ℚ) (s s' : GlobalSt), Step tmo' s Event.watchdogFire s' →
      s.state = AState.ACTIVATED ∧ s'.state = AState.LISTENING ∧
      tmo' ≤ s.now - s.lastActivity) := by
  refine ⟨watchdogRun_stall_fires env tmo L hstall fuel i hstart hfuel,
    ?_, ?_, ?_⟩
  · intro env' tmo' fuel' i' j' h
    obtain ⟨ha, hb⟩ := watchdogRun_fire_spec env' tmo' fuel' i' j' h
    refine ⟨ha, ?_, hb⟩
    rw [ha]
    simp
  · intro env' tmo' i' fuel' h1 h2
    exact watchdogRun_exit_spec env' tmo' i' fuel' h1 h2
  · intro tmo' s s' h
    exact watchdogFire_step_spec tmo' s s' h

theorem watchdog_timeout_behaviour_witness :
    ∃ j, watchdogRun (fun _ => (true, AState.ACTIVATED, 0)) 2 0 3 =
        some (j, WdAction.fire) ∧
      (2 : ℚ) ≤ (j : ℚ) - 0 ∧ (j : ℚ) - 0 ≤ 2 + 1 :=
  (watchdog_timeout_behaviour (fun _ => (true, AState.ACTIVATED, 0)) 2 0 0 3
    (fun _ => rfl) (by norm_num) (by norm_num)).1

/-- C9 counterexample: the claim says transport errors in the receive loop
also lead to the state being set back to `Listening`.  They do not: the
`except` in `_receive_audio` (assistant.py:94-97) only ends the receive
loop and leaves the state untouched.  If the error lands while the state is
`RESPONDING` (set at line 85, with `turn_complete` now never arriving), the
state stays `RESPONDING`: the Watchdog cannot fire (line 103 requires
`ACTIVATED`) and no normal session end is possible while running with the
state away from `LISTENING` — only a later send/connect error or an
explicit shutdown can move the state.  Concretely: from a reachable
`RESPONDING` state, the caught receive error leaves the state unchanged,
and neither a `watchdogFire` nor a `sessionEnd` step exists from it. -/
theorem recv_error_in_responding_sticks :
    Reachable 30 (⟨true, AState.RESPONDING, 0, 0, true, true, true⟩ : GlobalSt) ∧
    Step 30 (⟨true, AState.RESPONDING, 0, 0, true, true, true⟩ : GlobalSt)
      Event.recvError
      (⟨true, AState.RESPONDING, 0, 0, true, true, true⟩ : GlobalSt) ∧
    (⟨true, AState.RESPONDING, 0, 0, true, true, true⟩ : GlobalSt).state ≠
      AState.LISTENING ∧
    (∀ (s'' : GlobalSt), ¬ Step 30
      (⟨true, AState.RESPONDING, 0, 0, true, true, true⟩ : GlobalSt)
      Event.watchdogFire s'') ∧
    (∀ (s'' : GlobalSt), ¬ Step 30
      (⟨true, AState.RESPONDING, 0, 0, true, true, true⟩ : GlobalSt)
      Event.sessionEnd s'') ∧
    ¬(∀ (tmo : ℚ) (s s' : GlobalSt), Step tmo s Event.recvError s' →
        s'.state = AState.LISTENING) := by
  refine ⟨?_, Step.recvError rfl, by simp, ?_, ?_, ?_⟩
  · exact Reachable.step
      (Reachable.step Reachable.init (Step.sessionStart rfl rfl rfl))
      (Step.recvModelTurn rfl rfl (by simp))
  · intro s'' h
    cases h with
    | watchdogFire h1 h2 h3 => simp at h2
  · intro s'' h
    cases h with
    | sessionEnd h1 h2 => simp at h2
  · intro hclaim
    have hbad := hclaim 30
      (⟨true, AState.RESPONDING, 0, 0, true, true, true⟩ : GlobalSt)
      (⟨true, AState.RESPONDING, 0, 0, true, true, true⟩ : GlobalSt)
      (Step.recvError rfl)
    simp at hbad

/-- C9 (amended): (i) an error that reaches the `except` in `_run_session`
(raised while opening the session or propagated out of the gathered tasks,
e.g. a `session.send` failure) is absorbed: the running flag is untouched —
the process survives — the state is set back to `LISTENING` and the session
is closed; (ii) the orchestrator can then start a new session (loop back to
wake listening); (iii) a transport error in the receive loop (the `except`
in `_receive_audio`) is also caught, logged and non-fatal, but it only ends
the receive loop: the state is not set back to `LISTENING` by it; (iv) from
`RESPONDING` the Watchdog can never fire, and (v) no normal session end is
possible while running with the state away from `LISTENING`, so after such
an error only (vi) an explicit shutdown or (vii) a later session error can
force `LISTENING`; (viii) in contrast a missing (or empty) `GEMINI_API_KEY`
at startup is fatal: `VoiceAssistant.__init__` raises before the run loop
exists, while any non-empty key constructs normally. -/
theorem session_errors_nonfatal :
    (∀ (tmo : ℚ) (s s' : GlobalSt), Step tmo s Event.sessionError s' →
      s'.running = s.running ∧ s'.state = AState.LISTENING ∧
      s'.sessionOpen = false) ∧
    (∀ (tmo : ℚ) (s s' : GlobalSt), Step tmo s Event.sessionError s' →
      s.running = true → ∃ s'', Step tmo s' Event.sessionStart s'') ∧
    (∀ (tmo : ℚ) (s s' : GlobalSt), Step tmo s Event.recvError s' →
      s' = s) ∧
    (∀ (tmo : ℚ) (s : GlobalSt) (s'' : GlobalSt),
      s.state = AState.RESPONDING →
      ¬ Step tmo s Event.watchdogFire s'') ∧
    (∀ (tmo : ℚ) (s : GlobalSt) (s'' : GlobalSt),
      s.running = true → s.state ≠ AState.LISTENING →
      ¬ Step tmo s Event.sessionEnd s'') ∧
    (∀ (s : GlobalSt), s.running = true →
      (shutdown s).state = AState.LISTENING) ∧
    (∀ (tmo : ℚ) (s : GlobalSt), s.sessionOpen = true →
      ∃ s', Step tmo s Event.sessionError s' ∧
        s'.state = AState.LISTENING) ∧
    (∃ msg, initAssistant none = Except.error msg) ∧
    (∃ msg, initAssistant (some "") = Except.error msg) ∧
    (∀ k, k ≠ "" → initAssistant (some k) = Except.ok ()) := by
  refine ⟨?_, ?_, ?_, ?_, ?_, ?_, ?_, ⟨_, rfl⟩, ⟨_, rfl⟩, ?_⟩
  · intro tmo s s' h
    cases h with
    | sessionError h1 => exact ⟨rfl, rfl, rfl⟩
  · intro tmo s s' h hr
    cases h with
    | sessionError h1 => exact ⟨_, Step.sessionStart hr rfl rfl⟩
  · intro tmo s s' h
    cases h with
    | recvError h1 => rfl
  · intro tmo s s'' hresp h
    cases h with
    | watchdogFire h1 h2 h3 =>
      rw [hresp] at h2
      simp at h2
  · intro tmo s s'' hr hne h
    cases h with
    | sessionEnd h1 h2 =>
      rcases h2 with h2 | h2
      · exact hne h2
      · rw [hr] at h2
        simp at h2
  · intro s hr
    rw [shutdown, if_neg (by rw [hr]; simp)]
  · intro tmo s hopen
    exact ⟨_, Step.sessionError hopen, rfl⟩
  · intro k hk
    rw [initAssistant, if_neg hk]

theorem session_errors_nonfatal_witness :
    ((⟨true, AState.LISTENING, 0, 0, false, true, true⟩ : GlobalSt).running =
        (⟨true, AState.ACTIVATED, 0, 0, true, true, true⟩ : GlobalSt).running ∧
      (⟨true, AState.LISTENING, 0, 0, false, true, true⟩ : GlobalSt).state =
        AState.LISTENING ∧
      (⟨true, AState.LISTENING, 0, 0, false, true, true⟩ : GlobalSt).sessionOpen =
        false) ∧
    (∃ s'', Step 30
      (⟨true, AState.LISTENING, 0, 0, false, true, true⟩ : GlobalSt)
      Event.sessionStart s'') ∧
    ((⟨true, AState.RESPONDING, 0, 0, true, true, true⟩ : GlobalSt) =
      (⟨true, AState.RESPONDING, 0, 0, true, true, true⟩ : GlobalSt)) ∧
    (¬ Step 30 (⟨true, AState.RESPONDING, 0, 0, true, true, true⟩ : GlobalSt)
      Event.watchdogFire
      (⟨true, AState.LISTENING, 0, 0, true, true, true⟩ : GlobalSt)) ∧
    (shutdown (⟨true, AState.RESPONDING, 0, 0, true, true, true⟩ : GlobalSt)).state =
      AState.LISTENING ∧
    (∃ s', Step 30
      (⟨true, AState.RESPONDING, 0, 0, true, true, true⟩ : GlobalSt)
      Event.sessionError s' ∧ s'.state = AState.LISTENING) ∧
    initAssistant (some "k") = Except.ok () := by
  refine ⟨?_, ?_, ?_, ?_, ?_, ?_, ?_⟩
  · exact session_errors_nonfatal.1 30 _ _ (Step.sessionError rfl)
  · exact session_errors_nonfatal.2.1 30
      ⟨true, AState.ACTIVATED, 0, 0, true, true, true⟩ _
      (Step.sessionError rfl) rfl
  · exact session_errors_nonfatal.2.2.1 30
      ⟨true, AState.RESPONDING, 0, 0, true, true, true⟩ _
      (Step.recvError rfl)
  · exact session_errors_nonfatal.2.2.2.1 30 _ _ rfl
  · exact session_errors_nonfatal.2.2.2.2.2.1 _ rfl
  · exact session_errors_nonfatal.2.2.2.2.2.2.1 30 _ rfl
  · exact session_errors_nonfatal.2.2.2.2.2.2.2.2.2 "k" (by simp)

end VoiceAssistant
